import Mathlib

/-!
Verification of the traceroute text parser of `amazing_trace.py`.

The Python source is shallowly embedded: each helper below is a direct
translation of one construct of the source (`str.strip`, `str.splitlines`,
`str.split`, `int(...)`, `token.strip("()")`,
`re.match` with the pattern of four dot-separated digit groups,
`re.sub` removing non-numeric characters, `float(...)`, and the main
loop of `parse_traceroute`).  Timing values are modelled as exact
rationals parsed from the cleaned decimal token, since after
`re.sub` the token contains only ASCII digits and dots.
The character-class predicates model the ASCII fragment of Python's
Unicode whitespace and digit classes, which covers all traceroute text.
-/

namespace AmazingTrace

/-- Whitespace characters recognised by Python `str.strip()` / `str.split()`
(ASCII fragment plus the Latin-1 members). -/
def isPySpace (c : Char) : Bool :=
  c = ' ' || c = '\t' || c = '\n' || c = '\x0d' || c = '\x0b' || c = '\x0c' ||
  c = '\x1c' || c = '\x1d' || c = '\x1e' || c = '\x1f' || c = '\x85' || c = '\xa0'

/-- Line-boundary characters recognised by Python `str.splitlines()`. -/
def isPyLineBreak (c : Char) : Bool :=
  c = '\n' || c = '\x0d' || c = '\x0b' || c = '\x0c' ||
  c = '\x1c' || c = '\x1d' || c = '\x1e' || c = '\x85' ||
  c = '\u2028' || c = '\u2029'

/-- Python `s.strip()`: remove leading and trailing whitespace. -/
def pyStrip (s : List Char) : List Char :=
  ((s.dropWhile isPySpace).reverse.dropWhile isPySpace).reverse

/-- Worker for `pySplitlines`; `cur` is the current line, reversed. -/
def pySplitlinesCore : List Char → List Char → List (List Char)
  | cur, [] => [cur.reverse]
  | cur, '\x0d' :: '\n' :: rest =>
      cur.reverse :: (if rest.isEmpty then [] else pySplitlinesCore [] rest)
  | cur, c :: rest =>
      if isPyLineBreak c then
        cur.reverse :: (if rest.isEmpty then [] else pySplitlinesCore [] rest)
      else pySplitlinesCore (c :: cur) rest

/-- Python `s.splitlines()`: `"\x0d\n"` is one boundary, a trailing
boundary produces no empty final line, and the empty string gives `[]`. -/
def pySplitlines (s : List Char) : List (List Char) :=
  if s.isEmpty then [] else pySplitlinesCore [] s

/-- Worker for `pySplit`; `cur` is the current token, reversed. -/
def pySplitAux : List Char → List Char → List (List Char)
  | cur, [] => if cur.isEmpty then [] else [cur.reverse]
  | cur, c :: rest =>
      if isPySpace c then
        if cur.isEmpty then pySplitAux [] rest
        else cur.reverse :: pySplitAux [] rest
      else pySplitAux (c :: cur) rest

/-- Python `line.split()`: split on runs of whitespace, no empty tokens. -/
def pySplit (s : List Char) : List (List Char) :=
  pySplitAux [] s

/-- Digits of a Python integer literal after the first digit: single
underscores are allowed strictly between digits. -/
def pyDigitsRest : Nat → List Char → Option Nat
  | acc, [] => some acc
  | acc, '_' :: c :: rest =>
      if c.isDigit then pyDigitsRest (acc * 10 + (c.toNat - 48)) rest else none
  | _, ['_'] => none
  | acc, c :: rest =>
      if c.isDigit then pyDigitsRest (acc * 10 + (c.toNat - 48)) rest else none

/-- Magnitude part of Python `int(str)`: at least one digit, single
underscores only between digits. -/
def pyIntDigits : List Char → Option Nat
  | [] => none
  | c :: rest => if c.isDigit then pyDigitsRest (c.toNat - 48) rest else none

/-- Python `int(str)` (ASCII): surrounding whitespace stripped, optional
sign, then digits; `none` models the `ValueError`. -/
def pyInt : List Char → Option Int :=
  fun s =>
    match pyStrip s with
    | '+' :: rest => (pyIntDigits rest).map Int.ofNat
    | '-' :: rest => (pyIntDigits rest).map (fun n => -(n : Int))
    | t => (pyIntDigits t).map Int.ofNat

/-- Characters removed at both ends by `token.strip("()")`. -/
def isParenChar (c : Char) : Bool :=
  c = '(' || c = ')'

/-- Python `token.strip("()")`. -/
def stripParens (s : List Char) : List Char :=
  ((s.dropWhile isParenChar).reverse.dropWhile isParenChar).reverse

/-- Length of the leading ASCII digit run, and the remainder. -/
def digitRun : List Char → Nat × List Char
  | [] => (0, [])
  | c :: rest =>
      if c.isDigit then
        let p := digitRun rest
        (p.1 + 1, p.2)
      else (0, c :: rest)

/-- One group of the regex `\d{1,3}\.`: consume 1-3 digits followed by a
dot.  The regex is deterministic here: with only `\d{1,3}` followed by a
literal dot, backtracking can never split a maximal digit run, so the
group matches exactly when the maximal run has length 1-3 and a dot
follows it. -/
def ipv4GroupDot (s : List Char) : Option (List Char) :=
  let p := digitRun s
  if 1 ≤ p.1 ∧ p.1 ≤ 3 then
    match p.2 with
    | '.' :: rest => some rest
    | _ => none
  else none

/-- Python `re.match` with the source's pattern: the string BEGINS with
three groups of 1-3 digits each followed by a dot, then at least one
digit (`re.match` anchors only at the start, never at the end). -/
def ipv4Match (s : List Char) : Bool :=
  match ipv4GroupDot s with
  | none => false
  | some r1 =>
    match ipv4GroupDot r1 with
    | none => false
    | some r2 =>
      match ipv4GroupDot r2 with
      | none => false
      | some r3 =>
        match r3 with
        | c :: _ => c.isDigit
        | [] => false

/-- Python digit-string value (used for both sides of the decimal point). -/
def digitsToNat (s : List Char) : Nat :=
  s.foldl (fun a c => a * 10 + (c.toNat - 48)) 0

/-- Python `re.sub` removing every character that is not a digit or a dot. -/
def cleanRtt (s : List Char) : List Char :=
  s.filter (fun c => c.isDigit || c = '.')

/-- Python `float(cleaned)` for a string of digits and dots (the only
characters `cleanRtt` keeps): defined exactly when the string holds at
least one digit and at most one dot.  The value is exact as a rational. -/
def pyFloatClean (s : List Char) : Option ℚ :=
  if s.any Char.isDigit ∧ s.count '.' ≤ 1 then
    let intPart := s.takeWhile (fun c => ¬ c = '.')
    let fracPart := (s.dropWhile (fun c => ¬ c = '.')).drop 1
    some (mkRat (Int.ofNat (digitsToNat intPart * 10 ^ fracPart.length + digitsToNat fracPart))
      (10 ^ fracPart.length))
  else none

/-- The unit-marker token. -/
def msTok : List Char :=
  ['m', 's']

/-- The timeout-marker token. -/
def starTok : List Char :=
  ['*']

/-- The timing loop of `parse_traceroute`: for every `"ms"` token with a
predecessor, the predecessor is a timing value (`"*"` gives an absent
value, otherwise the cleaned token is parsed as a float).  `prev` carries
the previous token, so the head of the list has none. -/
def extractRttsAux : Option (List Char) → List (List Char) → List (Option ℚ)
  | _, [] => []
  | prev, t :: rest =>
      (if t = msTok then
        match prev with
        | some val =>
            [if val = starTok then none else pyFloatClean (cleanRtt val)]
        | none => []
      else []) ++ extractRttsAux (some t) rest

/-- Collected timing values of a token list, in order of appearance. -/
def extractRtts (tokens : List (List Char)) : List (Option ℚ) :=
  extractRttsAux none tokens

/-- The pad-then-truncate step: absent values are appended up to length 3
and the list is cut to its first 3 entries. -/
def padTruncate3 (l : List (Option ℚ)) : List (Option ℚ) :=
  (l ++ List.replicate (3 - l.length) none).take 3

/-- The identity span of the source: `id_end` is the index of the first
`"ms"` token minus one (or the length when there is none), and the span
is `tokens[1:id_end]` when `id_end > 1`, otherwise `tokens[1:]`. -/
def idTokens (tokens : List (List Char)) : List (List Char) :=
  match tokens.findIdx? (fun t => t = msTok) with
  | some i => if i - 1 > 1 then (tokens.drop 1).take (i - 1 - 1) else tokens.drop 1
  | none => tokens.drop 1

/-- The identity scan of the source: walk the span left to right keeping
the previous token; at the first token whose parenthesis-stripped form
matches the address pattern, record that stripped form as the address,
and record the previous raw token as the hostname when it exists and its
stripped form does not itself match. -/
def scanIdAux : Option (List Char) → List (List Char) → Option (List Char) × Option (List Char)
  | _, [] => (none, none)
  | prev, t :: rest =>
      let cand := stripParens t
      if ipv4Match cand then
        (some cand,
          match prev with
          | some p => if ipv4Match (stripParens p) then none else some p
          | none => none)
      else scanIdAux (some t) rest

/-- Identity scan started with no previous token. -/
def scanId (l : List (List Char)) : Option (List Char) × Option (List Char) :=
  scanIdAux none l

/-- Lines 106-125 of the source: the scan over the identity span, the
timeout reconciliation (a reassignment of the already-absent values when
`"*"` occurs among the tokens), and the self-reference suppression that
drops a hostname whose stripped form equals the address. -/
def finalizeId (tokens : List (List Char)) : Option (List Char) × Option (List Char) :=
  let s := scanId (idTokens tokens)
  let s2 :=
    if s.1 = none then
      if tokens.contains starTok then ((none : Option (List Char)), (none : Option (List Char)))
      else s
    else s
  match s2 with
  | (some a, some h) => if stripParens h = a then (some a, none) else (some a, some h)
  | p => p

/-- One parsed hop: the dictionary appended by `parse_traceroute`. -/
structure HopRecord where
  hop : Int
  ip : Option String
  hostname : Option String
  rtt : List (Option ℚ)
deriving DecidableEq

/-- The body of the per-line loop of `parse_traceroute`: skip the line
when it is blank or its first token is not an integer, otherwise build
the record. -/
def parseLine (line : List Char) : Option HopRecord :=
  match pySplit line with
  | [] => none
  | t0 :: ts =>
    match pyInt t0 with
    | none => none
    | some hop =>
      let tokens := t0 :: ts
      let rtts := padTruncate3 (extractRtts tokens)
      let ids := finalizeId tokens
      some ⟨hop, ids.1.map (fun cs => String.mk cs), ids.2.map (fun cs => String.mk cs), rtts⟩

/-- `parse_traceroute`: strip the input, split it into lines, return the
empty list when no lines remain, otherwise drop the header line and
collect the records of the remaining lines in order. -/
def parse_traceroute (s : String) : List HopRecord :=
  match pySplitlines (pyStrip s.toList) with
  | [] => []
  | _ :: rest => rest.filterMap parseLine

/-- Runtime behaviour of the `subprocess.run` call in `execute_traceroute`.
Without `check=True` the call never raises `CalledProcessError` itself,
but the source's `except` clause names only that class, so the model
keeps all three outcomes: normal completion (with the stdout bytes and
the return code), a raised `CalledProcessError`, and any other raised
exception (such as `FileNotFoundError` when the tracer binary is absent). -/
inductive RunOutcome where
  | completed (stdout : List Nat) (returncode : Int)
  | calledProcessError
  | otherException
deriving DecidableEq

/-- A Python value returned by `execute_traceroute`: `result.stdout` is a
bytes object (the call passes no `text=True`), while the `except` branch
returns the str `""`. -/
inductive PyValue where
  | pyBytes (bs : List Nat)
  | pyStr (s : String)
deriving DecidableEq

/-- `execute_traceroute`: return `result.stdout` on completion, return the
empty str when a `CalledProcessError` is caught, and propagate every
other exception (nothing else is caught). -/
def execute_traceroute : RunOutcome → Except Unit PyValue
  | RunOutcome.completed out _ => Except.ok (PyValue.pyBytes out)
  | RunOutcome.calledProcessError => Except.ok (PyValue.pyStr "")
  | RunOutcome.otherException => Except.error ()

/-! Specification-side definitions.  These follow the words of the spec
(or of an amended claim) rather than the control flow of the source, and
are compared with the source-level definitions above. -/

/-- Following the spec words: a token of exactly four dot-separated
groups of 1-3 digits. -/
def specExactIPv4 (s : List Char) : Bool :=
  let groups := s.splitOn '.'
  decide (groups.length = 4) &&
    groups.all (fun g => decide (1 ≤ g.length) && decide (g.length ≤ 3) && g.all Char.isDigit)

/-- Following the claim words: the token span strictly between the hop
number and the first unit-marker token, or the rest of the line when no
unit-marker token exists. -/
def specStrictSpan (tokens : List (List Char)) : List (List Char) :=
  match tokens.findIdx? (fun t => t = msTok) with
  | some i => (tokens.drop 1).take (i - 1)
  | none => tokens.drop 1

/-- Index-based restatement of the identity scan, following the amended
claim: the address is the parenthesis-stripped form of the token at the
FIRST index whose stripped form matches the address pattern, and the
hostname is the raw token just before that index (the seed `prev` before
the head of the list) when it exists and does not itself match. -/
def specScanIdAux (prev : Option (List Char)) (l : List (List Char)) :
    Option (List Char) × Option (List Char) :=
  match l.findIdx? (fun t => ipv4Match (stripParens t)) with
  | none => (none, none)
  | some j =>
      (some (stripParens (l.getD j [])),
        if j = 0 then
          match prev with
          | some p => if ipv4Match (stripParens p) then none else some p
          | none => none
        else
          if ipv4Match (stripParens (l.getD (j - 1) [])) then none
          else some (l.getD (j - 1) []))

/-- Index-based identity scan started with no previous token. -/
def specScanId (l : List (List Char)) : Option (List Char) × Option (List Char) :=
  specScanIdAux none l

/-- The amended claim's account of the whole identity extraction: run the
index-based scan over the source's span, then drop a hostname whose
stripped form equals the address. -/
def specIdentity (tokens : List (List Char)) : Option String × Option String :=
  match specScanId (idTokens tokens) with
  | (some a, some h) =>
      if stripParens h = a then (some (String.mk a), none)
      else (some (String.mk a), some (String.mk h))
  | (some a, none) => (some (String.mk a), none)
  | (none, _) => (none, none)

/-- A line the loop of `parse_traceroute` turns into a record: non-blank,
with a first token that converts to an integer. -/
def isHopLine (line : List Char) : Bool :=
  match pySplit line with
  | [] => false
  | t0 :: _ => (pyInt t0).isSome

/-! Helper lemmas. -/

theorem scanIdAux_eq_spec (l : List (List Char)) :
    ∀ prev, scanIdAux prev l = specScanIdAux prev l := by
  induction l with
  | nil => intro prev; rfl
  | cons t rest ih =>
    intro prev
    cases hm : ipv4Match (stripParens t) with
    | true =>
      simp [scanIdAux, specScanIdAux, List.findIdx?_cons, hm]
    | false =>
      simp only [scanIdAux, hm, if_false]
      rw [ih (some t)]
      simp only [specScanIdAux, List.findIdx?_cons, hm, if_false, List.findIdx?_succ]
      cases hf : rest.findIdx? (fun u => ipv4Match (stripParens u)) with
      | none => simp
      | some j =>
        cases j with
        | zero => simp [hm]
        | succ k => simp

theorem scanId_eq_spec (l : List (List Char)) : scanId l = specScanId l :=
  scanIdAux_eq_spec l none

theorem scanIdAux_ip_none (l : List (List Char)) :
    ∀ prev, (scanIdAux prev l).1 = none → (scanIdAux prev l).2 = none := by
  induction l with
  | nil => intro prev _; rfl
  | cons t rest ih =>
    intro prev
    cases hm : ipv4Match (stripParens t) with
    | true => simp [scanIdAux, hm]
    | false =>
      simp only [scanIdAux, hm, if_false]
      exact ih (some t)

theorem scanIdAux_host_mem (l : List (List Char)) :
    ∀ prev h, (scanIdAux prev l).2 = some h → h ∈ l ∨ prev = some h := by
  induction l with
  | nil => intro prev h hh; exact absurd hh (by simp [scanIdAux])
  | cons t rest ih =>
    intro prev h hh
    cases hm : ipv4Match (stripParens t) with
    | true =>
      simp only [scanIdAux, hm, if_true] at hh
      cases prev with
      | none => simp at hh
      | some p =>
        simp only at hh
        by_cases hp : ipv4Match (stripParens p) = true
        · simp [hp] at hh
        · simp only [Bool.not_eq_true] at hp
          simp [hp] at hh
          exact Or.inr (by rw [hh])
    | false =>
      simp only [scanIdAux, hm, if_false] at hh
      rcases ih (some t) h hh with hmem | hprev
      · exact Or.inl (List.mem_cons_of_mem t hmem)
      · simp only [Option.some.injEq] at hprev
        subst hprev
        exact Or.inl (List.mem_cons_self t rest)

theorem scanIdAux_ip_mem (l : List (List Char)) :
    ∀ prev a, (scanIdAux prev l).1 = some a → ∃ t ∈ l, a = stripParens t := by
  induction l with
  | nil => intro prev a ha; exact absurd ha (by simp [scanIdAux])
  | cons t rest ih =>
    intro prev a ha
    cases hm : ipv4Match (stripParens t) with
    | true =>
      simp only [scanIdAux, hm, if_true] at ha
      exact ⟨t, List.mem_cons_self t rest, by simp at ha; rw [ha]⟩
    | false =>
      simp only [scanIdAux, hm, if_false] at ha
      rcases ih (some t) a ha with ⟨u, hu, hau⟩
      exact ⟨u, List.mem_cons_of_mem t hu, hau⟩

theorem specScanIdAux_ip_none (prev : Option (List Char)) (l : List (List Char)) :
    (specScanIdAux prev l).1 = none → (specScanIdAux prev l).2 = none := by
  unfold specScanIdAux
  split
  · intro _; rfl
  · intro h; simp at h

theorem specScanId_host_mem (l : List (List Char)) (h : List Char) :
    (specScanId l).2 = some h → h ∈ l := by
  intro hh
  rw [show specScanId l = scanId l from (scanId_eq_spec l).symm] at hh
  rcases scanIdAux_host_mem l none h hh with hm | hp
  · exact hm
  · exact absurd hp (by simp)

theorem specScanId_ip_mem (l : List (List Char)) (a : List Char) :
    (specScanId l).1 = some a → ∃ t ∈ l, a = stripParens t := by
  intro ha
  rw [show specScanId l = scanId l from (scanId_eq_spec l).symm] at ha
  exact scanIdAux_ip_mem l none a ha

theorem idTokens_subset (tokens : List (List Char)) :
    ∀ t ∈ idTokens tokens, t ∈ tokens := by
  intro t ht
  unfold idTokens at ht
  split at ht
  · split at ht
    · exact List.mem_of_mem_drop (List.mem_of_mem_take ht)
    · exact List.mem_of_mem_drop ht
  · exact List.mem_of_mem_drop ht

theorem finalizeId_eq (tokens : List (List Char)) :
    finalizeId tokens =
      (match specScanId (idTokens tokens) with
      | (some a, some h) => if stripParens h = a then (some a, none) else (some a, some h)
      | (some a, none) => (some a, none)
      | (none, _) => (none, none)) := by
  have hs := scanId_eq_spec (idTokens tokens)
  rcases hsc : scanId (idTokens tokens) with ⟨ip, host⟩
  rw [hsc] at hs
  rw [← hs]
  cases ip with
  | none =>
    have h2 : host = none := by
      have hn := scanIdAux_ip_none (idTokens tokens) none
      rw [show scanIdAux none (idTokens tokens) = (none, host) from hsc] at hn
      exact hn rfl
    subst h2
    simp [finalizeId, hsc]
  | some a =>
    cases host with
    | none => simp [finalizeId, hsc]
    | some h =>
      by_cases he : stripParens h = a
      · simp [finalizeId, hsc, he]
      · simp [finalizeId, hsc, he]

theorem finalizeId_ip_none (tokens : List (List Char)) :
    (finalizeId tokens).1 = none → (finalizeId tokens).2 = none := by
  rw [finalizeId_eq]
  rcases hs : specScanId (idTokens tokens) with ⟨ip, host⟩
  cases ip with
  | none => cases host <;> simp
  | some a =>
    cases host with
    | none => simp
    | some h => by_cases he : stripParens h = a <;> simp [he]

theorem finalizeId_host_ne (tokens : List (List Char)) (a h : List Char) :
    finalizeId tokens = (some a, some h) → ¬ stripParens h = a := by
  rw [finalizeId_eq]
  rcases hs : specScanId (idTokens tokens) with ⟨ip, host⟩
  cases ip with
  | none =>
    cases host <;> (intro hc; simp at hc)
  | some a0 =>
    cases host with
    | none => intro hc; simp at hc
    | some h0 =>
      by_cases he : stripParens h0 = a0
      · intro hc; simp [he] at hc
      · intro hc
        simp only [if_neg he, Prod.mk.injEq, Option.some.injEq] at hc
        obtain ⟨rfl, rfl⟩ := hc
        exact he

theorem finalizeId_host_mem (tokens : List (List Char)) (h : List Char) :
    (finalizeId tokens).2 = some h → h ∈ tokens := by
  rw [finalizeId_eq]
  rcases hs : specScanId (idTokens tokens) with ⟨ip, host⟩
  cases ip with
  | none => cases host <;> simp
  | some a =>
    cases host with
    | none => simp
    | some h0 =>
      by_cases he : stripParens h0 = a
      · simp [he]
      · simp only [if_neg he, Option.some.injEq]
        intro hh
        subst hh
        exact idTokens_subset tokens h0 (specScanId_host_mem _ h0 (by rw [hs]))

theorem finalizeId_ip_mem (tokens : List (List Char)) (a : List Char) :
    (finalizeId tokens).1 = some a → ∃ t ∈ tokens, a = stripParens t := by
  rw [finalizeId_eq]
  rcases hs : specScanId (idTokens tokens) with ⟨ip, host⟩
  have hspec : ip = some a → ∃ t ∈ tokens, a = stripParens t := by
    intro hh
    subst hh
    rcases specScanId_ip_mem (idTokens tokens) a (by rw [hs]) with ⟨t, ht, hat⟩
    exact ⟨t, idTokens_subset tokens t ht, hat⟩
  cases ip with
  | none => cases host <;> simp
  | some a0 =>
    cases host with
    | none =>
      simp only [Option.some.injEq]
      intro hh
      subst hh
      exact hspec rfl
    | some h0 =>
      by_cases he : stripParens h0 = a0
      · simp only [if_pos he, Option.some.injEq]
        intro hh
        subst hh
        exact hspec rfl
      · simp only [if_neg he, Option.some.injEq]
        intro hh
        subst hh
        exact hspec rfl

theorem parseLine_eq_some (line : List Char) (r : HopRecord) (h : parseLine line = some r) :
    ∃ t0 ts hop, pySplit line = t0 :: ts ∧ pyInt t0 = some hop ∧
      r = ⟨hop, ((finalizeId (t0 :: ts)).1).map (fun cs => String.mk cs),
           ((finalizeId (t0 :: ts)).2).map (fun cs => String.mk cs),
           padTruncate3 (extractRtts (t0 :: ts))⟩ := by
  unfold parseLine at h
  rcases hsp : pySplit line with _ | ⟨t0, ts⟩
  · rw [hsp] at h; exact absurd h (by simp)
  · rw [hsp] at h
    dsimp only at h
    rcases hint : pyInt t0 with _ | hop
    · rw [hint] at h; exact absurd h (by simp)
    · rw [hint] at h
      dsimp only at h
      simp only [Option.some.injEq] at h
      exact ⟨t0, ts, hop, rfl, hint, h.symm⟩

theorem parseLine_isSome (line : List Char) :
    (parseLine line).isSome = isHopLine line := by
  unfold parseLine isHopLine
  cases hsp : pySplit line with
  | nil => rfl
  | cons t0 ts =>
    dsimp only
    cases hint : pyInt t0 <;> rfl

theorem parseLine_map_hop (line : List Char) :
    (parseLine line).map HopRecord.hop = ((pySplit line).head?).bind pyInt := by
  unfold parseLine
  cases hsp : pySplit line with
  | nil => rfl
  | cons t0 ts =>
    dsimp only
    cases hint : pyInt t0 <;> simp [hint]

theorem mem_parse (s : String) (r : HopRecord) (h : r ∈ parse_traceroute s) :
    ∃ line, parseLine line = some r := by
  unfold parse_traceroute at h
  rcases hl : pySplitlines (pyStrip s.toList) with _ | ⟨hd, rest⟩
  · rw [hl] at h; simp at h
  · rw [hl] at h
    rcases List.mem_filterMap.mp h with ⟨line, _, hline⟩
    exact ⟨line, hline⟩

theorem padTruncate3_length (l : List (Option ℚ)) : (padTruncate3 l).length = 3 := by
  unfold padTruncate3
  rw [List.length_take, List.length_append, List.length_replicate]
  omega

theorem length_filterMap_eq_countP (f : List Char → Option HopRecord) (l : List (List Char)) :
    (l.filterMap f).length = l.countP (fun a => (f a).isSome) := by
  induction l with
  | nil => rfl
  | cons x xs ih =>
    rw [List.filterMap_cons, List.countP_cons]
    cases hf : f x with
    | none => simp [hf, ih]
    | some r => simp [hf, ih]

/-! Claim theorems. -/

/-- C1: `parse_traceroute` is a total function returning a (possibly
empty) list of records for every input string, and the records come
exactly from the non-blank lines after the header whose first whitespace
token converts to a base-10 integer — any other line is skipped entirely,
every remaining anomaly being absorbed into absent fields rather than a
failure. -/
theorem C1_parse_total_skips_nonint (s : String) :
    (parse_traceroute s).length =
      ((pySplitlines (pyStrip s.toList)).drop 1).countP isHopLine := by
  unfold parse_traceroute
  cases hl : pySplitlines (pyStrip s.toList) with
  | nil => rfl
  | cons hd rest =>
    dsimp only
    rw [length_filterMap_eq_countP parseLine rest,
      show (fun a => (parseLine a).isSome) = isHopLine from funext parseLine_isSome]
    rfl

/-- C2 (amended): the address and hostname of a record come from the
source's identity span — the tokens from the second one up to but
excluding the two ending at the first unit token when that token's index
is at least 3, and the whole rest of the line otherwise (including when
no unit token exists) — scanned left to right for the first token whose
parenthesis-stripped form BEGINS with an IPv4-shaped prefix (four
dot-separated groups of 1-3 digits, not necessarily covering the whole
token); that stripped form is the address, the raw token just before it
(when present and not itself IPv4-prefix-shaped after stripping) is the
hostname, and a hostname whose stripped form equals the address is then
discarded. -/
theorem C2_amended_identity (line : List Char) (r : HopRecord)
    (h : parseLine line = some r) :
    (r.ip, r.hostname) = specIdentity (pySplit line) := by
  rcases parseLine_eq_some line r h with ⟨t0, ts, hop, hsp, hint, hr⟩
  subst hr
  dsimp only
  rw [hsp]
  rw [finalizeId_eq]
  unfold specIdentity
  rcases hsc : specScanId (idTokens (t0 :: ts)) with ⟨ip, host⟩
  cases ip with
  | none => cases host <;> simp
  | some a =>
    cases host with
    | none => simp
    | some hn =>
      by_cases he : stripParens hn = a
      · simp [he]
      · simp [he]

/-- C2 witness: a concrete hop line on which the amended identity
extraction agrees with the parser. -/
theorem C2_amended_identity_witness :
    parseLine ("1  rtr.example (192.168.0.1)  1.5 ms".toList) =
      some ⟨1, some "192.168.0.1", some "rtr.example", [some (mkRat 15 10), none, none]⟩ ∧
    ((⟨1, some "192.168.0.1", some "rtr.example",
        [some (mkRat 15 10), none, none]⟩ : HopRecord).ip,
     (⟨1, some "192.168.0.1", some "rtr.example",
        [some (mkRat 15 10), none, none]⟩ : HopRecord).hostname) =
      specIdentity (pySplit ("1  rtr.example (192.168.0.1)  1.5 ms".toList)) :=
  ⟨by decide, C2_amended_identity ("1  rtr.example (192.168.0.1)  1.5 ms".toList) _ (by decide)⟩

/-- C2 counterexample: the claim as stated is false on the code.  On the
first hop line the parser records the address "1.2.3.4.5", a token that
is NOT of the exact IPv4 shape (the source's pattern is only anchored at
the start).  On the second hop line the span strictly between the hop
number and the first unit token contains the exact-IPv4 token "9.9.9.9",
yet the parser records no address at all, because its span stops one
token before the unit token. -/
theorem C2_counterexample :
    ((parse_traceroute "h\n1 1.2.3.4.5 0.5 ms 0.6 ms 0.7 ms\n2 host 9.9.9.9 ms").map
        (fun r => r.ip) = [some "1.2.3.4.5", none]) ∧
    specExactIPv4 ("1.2.3.4.5".toList) = false ∧
    specStrictSpan (pySplit ("2 host 9.9.9.9 ms".toList)) = ["host".toList, "9.9.9.9".toList] ∧
    specExactIPv4 ("9.9.9.9".toList) = true := by
  decide

/-- C3: every record returned by the parser has a round-trip-time list of
length exactly 3, whatever the input line held. -/
theorem C3_rtt_length (s : String) (r : HopRecord) (h : r ∈ parse_traceroute s) :
    r.rtt.length = 3 := by
  rcases mem_parse s r h with ⟨line, hline⟩
  rcases parseLine_eq_some line r hline with ⟨t0, ts, hop, _, _, hr⟩
  rw [hr]
  exact padTruncate3_length _

/-- C3 witness: a record of a fully timed-out hop, rtt length 3. -/
theorem C3_rtt_length_witness :
    (⟨3, none, none, [none, none, none]⟩ : HopRecord) ∈
        parse_traceroute "traceroute to a\n3  * * *" ∧
    (⟨3, none, none, [none, none, none]⟩ : HopRecord).rtt.length = 3 :=
  ⟨by decide, C3_rtt_length "traceroute to a\n3  * * *" _ (by decide)⟩

/-- C4: a record with an absent address always has an absent hostname. -/
theorem C4_no_hostname_without_ip (s : String) (r : HopRecord)
    (h : r ∈ parse_traceroute s) (hip : r.ip = none) : r.hostname = none := by
  rcases mem_parse s r h with ⟨line, hline⟩
  rcases parseLine_eq_some line r hline with ⟨t0, ts, hop, _, _, hr⟩
  subst hr
  dsimp only at hip ⊢
  have h1 : (finalizeId (t0 :: ts)).1 = none := by
    cases hf : (finalizeId (t0 :: ts)).1
    · rfl
    · rw [hf] at hip; simp at hip
  rw [finalizeId_ip_none _ h1]
  rfl

/-- C4 witness: the timed-out hop record has both fields absent. -/
theorem C4_no_hostname_without_ip_witness :
    (⟨3, none, none, [none, none, none]⟩ : HopRecord) ∈ parse_traceroute "hd\n3  * * *" ∧
    (⟨3, none, none, [none, none, none]⟩ : HopRecord).hostname = none :=
  ⟨by decide, C4_no_hostname_without_ip "hd\n3  * * *" _ (by decide) (by decide)⟩

/-- C5 (amended): the records appear in the order of the valid hop lines
of the input, the hop of each record being the integer parsed from its
line's first token; the parser never reorders or filters by hop number,
so the hop sequence is monotonically non-decreasing exactly when the
leading integers of the valid hop lines are, not for every input. -/
theorem C5_amended_hops_in_line_order (s : String) :
    (parse_traceroute s).map HopRecord.hop =
      ((pySplitlines (pyStrip s.toList)).drop 1).filterMap
        (fun l => ((pySplit l).head?).bind pyInt) := by
  unfold parse_traceroute
  cases hl : pySplitlines (pyStrip s.toList) with
  | nil => rfl
  | cons hd rest =>
    dsimp only
    rw [List.map_filterMap,
      show (fun x => (parseLine x).map HopRecord.hop) =
        (fun l => ((pySplit l).head?).bind pyInt) from funext parseLine_map_hop]
    rfl

/-- C5 counterexample: the claim as stated is false on the code — an
input whose hop lines carry decreasing numbers parses to a record
sequence whose hop numbers are not monotonically non-decreasing. -/
theorem C5_counterexample :
    (parse_traceroute "h\n2  * * *\n1  * * *").map HopRecord.hop = [2, 1] ∧
    ¬ List.Chain' (fun a b => a ≤ b)
        ((parse_traceroute "h\n2  * * *\n1  * * *").map HopRecord.hop) := by
  have h : (parse_traceroute "h\n2  * * *\n1  * * *").map HopRecord.hop = [2, 1] := by
    decide
  refine ⟨h, ?_⟩
  rw [h]
  intro hch
  have h21 := (List.chain'_cons.mp hch).1
  omega

/-- C6: when both a hostname and an address are present in a returned
record, the hostname with enclosing parentheses stripped differs from the
address — a stripped hostname equal to the address is discarded. -/
theorem C6_hostname_ne_ip (s : String) (r : HopRecord) (hn ad : String)
    (h : r ∈ parse_traceroute s) (hh : r.hostname = some hn) (ha : r.ip = some ad) :
    ¬ String.mk (stripParens hn.toList) = ad := by
  rcases mem_parse s r h with ⟨line, hline⟩
  rcases parseLine_eq_some line r hline with ⟨t0, ts, hop, _, _, hr⟩
  subst hr
  dsimp only at hh ha
  rcases hf2 : (finalizeId (t0 :: ts)).2 with _ | cs
  · rw [hf2] at hh; simp at hh
  · rw [hf2] at hh
    rcases hf1 : (finalizeId (t0 :: ts)).1 with _ | cs2
    · rw [hf1] at ha; simp at ha
    · rw [hf1] at ha
      simp only [Option.map_some', Option.some.injEq] at hh ha
      have hne := finalizeId_host_ne (t0 :: ts) cs2 cs
        (by rw [Prod.ext_iff]; exact ⟨hf1, hf2⟩)
      intro hcontra
      apply hne
      rw [← hh] at hcontra
      rw [← ha] at hcontra
      exact congrArg String.data hcontra

/-- C6 witness: a hop line with a genuine hostname distinct from the
address. -/
theorem C6_hostname_ne_ip_witness :
    (⟨1, some "10.9.8.7", some "gw.lan", [some (mkRat 25 10), none, none]⟩ : HopRecord) ∈
        parse_traceroute "hdr\n1  gw.lan (10.9.8.7)  2.5 ms" ∧
    ¬ String.mk (stripParens ("gw.lan" : String).toList) = "10.9.8.7" :=
  ⟨by decide,
    C6_hostname_ne_ip "hdr\n1  gw.lan (10.9.8.7)  2.5 ms"
      ⟨1, some "10.9.8.7", some "gw.lan", [some (mkRat 25 10), none, none]⟩ "gw.lan" "10.9.8.7"
      (by decide) (by decide) (by decide)⟩

/-- C7: the documented single-hop example parses to exactly one record
with hop 1, address 10.0.0.1, hostname rtr.local and the three timings. -/
theorem C7_scenario_a :
    parse_traceroute
        "traceroute to rtr.local (10.0.0.1), 30 hops max\n1  rtr.local (10.0.0.1)  0.334 ms  0.311 ms  0.302 ms" =
      [⟨1, some "10.0.0.1", some "rtr.local", [some 0.334, some 0.311, some 0.302]⟩] := by
  have h : parse_traceroute
      "traceroute to rtr.local (10.0.0.1), 30 hops max\n1  rtr.local (10.0.0.1)  0.334 ms  0.311 ms  0.302 ms" =
      [⟨1, some "10.0.0.1", some "rtr.local",
        [some (mkRat 334 1000), some (mkRat 311 1000), some (mkRat 302 1000)]⟩] := by
    decide
  rw [h,
    show mkRat 334 1000 = (0.334 : ℚ) by norm_num,
    show mkRat 311 1000 = (0.311 : ℚ) by norm_num,
    show mkRat 302 1000 = (0.302 : ℚ) by norm_num]

/-- C8: an input that is empty or holds only whitespace parses to the
empty sequence rather than an error. -/
theorem C8_empty_input (s : String) (h : s.toList.all isPySpace = true) :
    parse_traceroute s = [] := by
  have hstrip : pyStrip s.toList = [] := by
    unfold pyStrip
    have hd : s.toList.dropWhile isPySpace = [] := by
      rw [List.dropWhile_eq_nil_iff]
      intro x hx
      exact (List.all_eq_true.mp h) x hx
    rw [hd]
    rfl
  unfold parse_traceroute
  rw [hstrip]
  rfl

/-- C8 witness: a whitespace-only input yields the empty sequence. -/
theorem C8_empty_input_witness :
    ((" \n\t" : String).toList.all isPySpace = true) ∧ parse_traceroute " \n\t" = [] :=
  ⟨by decide, C8_empty_input " \n\t" (by decide)⟩

/-- C9: evidence for the code bug in `execute_traceroute`.  An exception
other than `CalledProcessError` (the only class the `except` clause
names, and one `subprocess.run` never raises without `check=True`)
propagates to the caller instead of yielding an empty string; and on
success the function returns the stdout BYTES object, not a str as its
docstring and the spec state. -/
theorem C9_code_bug_evidence :
    execute_traceroute RunOutcome.otherException = Except.error () ∧
    execute_traceroute (RunOutcome.completed [49, 10] 0) = Except.ok (PyValue.pyBytes [49, 10]) ∧
    PyValue.pyBytes [] ≠ PyValue.pyStr "" := by
  refine ⟨rfl, rfl, ?_⟩
  decide

/-- C10: a recorded hostname is stored verbatim as one of the line's
whitespace tokens (enclosing parentheses included), and the co-recorded
address is the parenthesis-stripped form of one of the line's tokens. -/
theorem C10_hostname_verbatim (line : List Char) (r : HopRecord) (hn : String)
    (h : parseLine line = some r) (hh : r.hostname = some hn) :
    hn.toList ∈ pySplit line ∧
    ∃ ad, r.ip = some ad ∧ ∃ t, t ∈ pySplit line ∧ ad.toList = stripParens t := by
  rcases parseLine_eq_some line r h with ⟨t0, ts, hop, hsp, hint, hr⟩
  subst hr
  dsimp only at hh ⊢
  rcases hf2 : (finalizeId (t0 :: ts)).2 with _ | cs
  · rw [hf2] at hh; simp at hh
  · rw [hf2] at hh
    injection hh with hh2
    subst hh2
    rcases hf1 : (finalizeId (t0 :: ts)).1 with _ | cs2
    · exact absurd (finalizeId_ip_none _ hf1) (by rw [hf2]; simp)
    · constructor
      · rw [hsp]
        exact finalizeId_host_mem (t0 :: ts) cs hf2
      · refine ⟨String.mk cs2, rfl, ?_⟩
        rcases finalizeId_ip_mem (t0 :: ts) cs2 hf1 with ⟨t, ht, hct⟩
        exact ⟨t, by rw [hsp]; exact ht, hct⟩

/-- C10 witness: a parenthesised hostname token is stored with its
parentheses, while the address token is stored stripped. -/
theorem C10_hostname_verbatim_witness :
    parseLine ("1 (edge) 10.0.0.9 0.5 ms".toList) =
      some ⟨1, some "10.0.0.9", some "(edge)", [some (mkRat 5 10), none, none]⟩ ∧
    (("(edge)" : String).toList ∈ pySplit ("1 (edge) 10.0.0.9 0.5 ms".toList) ∧
      ∃ ad, (⟨1, some "10.0.0.9", some "(edge)",
          [some (mkRat 5 10), none, none]⟩ : HopRecord).ip = some ad ∧
        ∃ t, t ∈ pySplit ("1 (edge) 10.0.0.9 0.5 ms".toList) ∧ ad.toList = stripParens t) :=
  ⟨by decide,
    C10_hostname_verbatim ("1 (edge) 10.0.0.9 0.5 ms".toList)
      ⟨1, some "10.0.0.9", some "(edge)", [some (mkRat 5 10), none, none]⟩ "(edge)"
      (by decide) (by decide)⟩

end AmazingTrace
